import Mathlib

/-!
Verification of the Wyze doorbell event bridge (`src/wyze_event_bridge.py`).

Shallow embedding conventions:
* Timestamps are integer milliseconds UTC (`Int`).  The code's watermark
  epsilon `timedelta(seconds=0.001)` is the integer `1`.
* `last_check_time` (the watermark) is the single piece of mutable state; it
  is threaded explicitly through `poll_cycle`.
* The upstream query `client.events.list(...)` is an input of each cycle:
  `Except Unit (List RawEvent)` (`.error` models any raised transport/API
  exception, caught by the `except` block of `poll_for_doorbell_events`).
* `requests.post` is modelled by an `HttpOutcome` per payload: either a
  transport-level exception or a response with an HTTP status code.
-/

namespace WyzeBridge

/-- `EVENT_TYPE_BUTTON_PRESS = 2005`, the doorbell button-press code. -/
def EVENT_TYPE_BUTTON_PRESS : Int := 2005

/-- The watermark increment `timedelta(seconds=0.001)`: one millisecond. -/
def EPSILON_MS : Int := 1

/-- A raw event as returned by `client.events.list`: its `event_type` code and
its `event_ts` timestamp (already converted to UTC, in ms). -/
structure RawEvent where
  event_type : Int
  event_ts : Int
  deriving DecidableEq, Repr

/-- The `event_data` dict that `poll_for_doorbell_events` builds for a
qualifying event (the ISO-8601 `eventTime` string is represented by the
underlying UTC timestamp, conversion being injective and order-preserving). -/
structure EventData where
  eventType : Int
  deviceMac : String
  eventTime : Int
  deriving DecidableEq, Repr

/-- Outcome of one `requests.post` call: a transport-level exception
(timeout, connection refused, DNS failure, ...) or a response status. -/
inductive HttpOutcome where
  | transportError
  | status (code : Nat)
  deriving DecidableEq, Repr

/-- What `send_to_csharp_bridge` reports (by its log line) for one delivery. -/
inductive DeliveryResult where
  | success
  | failure
  deriving DecidableEq, Repr

/-- `requests.post` followed by `response.raise_for_status()`:
a transport error raises, and `raise_for_status` raises exactly for status
codes in 400..599 (4xx client errors and 5xx server errors). -/
def post_and_raise_for_status (outcome : HttpOutcome) : Except Unit Nat :=
  match outcome with
  | .transportError => .error ()
  | .status c => if 400 ≤ c ∧ c < 600 then .error () else .ok c

/-- `send_to_csharp_bridge`: the whole body is wrapped in
`try ... except RequestException ... except Exception`, so every raised
exception is swallowed and logged; the function never raises to its caller. -/
def send_to_csharp_bridge (outcome : HttpOutcome) : DeliveryResult :=
  match post_and_raise_for_status outcome with
  | .ok _ => .success
  | .error _ => .failure

/-- The `for event in events:` loop of `poll_for_doorbell_events`:
accumulates `new_doorbell_presses` (payloads of events whose type equals
`EVENT_TYPE_BUTTON_PRESS`, in source order) and `latest_event_time`
(running maximum of all `event_ts`, seeded with `start_time`). -/
def scanEvents (device_mac : String) :
    List RawEvent → List EventData → Int → List EventData × Int
  | [], presses, latest => (presses, latest)
  | event :: rest, presses, latest =>
      scanEvents device_mac rest
        (if event.event_type = EVENT_TYPE_BUTTON_PRESS then
          presses ++ [{ eventType := event.event_type, deviceMac := device_mac,
                        eventTime := event.event_ts }]
         else presses)
        (if event.event_ts > latest then event.event_ts else latest)

/-- One call of `poll_for_doorbell_events(client, device_mac)`.

Inputs: the watermark `last_check_time`, the `current_time` sampled at cycle
start (`end_time`), the query result, and the HTTP outcome each POST would
get.  Returns the new watermark and the list of delivery attempts in the
order they are made (`for press in reversed(new_doorbell_presses)`).

On a query exception the `except` block runs: nothing is sent and
`last_check_time` remains unchanged.  On success the watermark becomes
`latest_event_time + 1ms` when `latest_event_time > last_check_time`, and
`current_time` otherwise. -/
def poll_cycle (last_check_time current_time : Int) (device_mac : String)
    (query : Except Unit (List RawEvent)) (http : EventData → HttpOutcome) :
    Int × List (EventData × DeliveryResult) :=
  match query with
  | .error _ => (last_check_time, [])
  | .ok events =>
      let start_time := last_check_time
      let scanned := scanEvents device_mac events [] start_time
      let new_doorbell_presses := scanned.1
      let latest_event_time := scanned.2
      let attempts := new_doorbell_presses.reverse.map
        (fun press => (press, send_to_csharp_bridge (http press)))
      let new_last_check :=
        if latest_event_time > last_check_time then latest_event_time + EPSILON_MS
        else current_time
      (new_last_check, attempts)

/-- Query model for multi-cycle runs: a successful `client.events.list` call
returns exactly the stored events whose timestamp lies in the inclusive
window `[start_time, end_time]` (the spec's §6 interface: inclusive UTC
bounds; the `max_count = 10` cap is honoured by hypotheses bounding the
number of stored events). -/
def eventsInWindow (E : List RawEvent) (s e : Int) : List RawEvent :=
  E.filter (fun ev => s ≤ ev.event_ts ∧ ev.event_ts ≤ e)

/-- `N` consecutive iterations of `main`'s `while True` loop, one per entry
of `nows` (the `current_time` sampled by that cycle), every query succeeding
and returning the stored events falling in its window.  Returns the final
watermark and the concatenated list of delivered payloads in delivery
order. -/
def runCycles (device_mac : String) (E : List RawEvent)
    (http : EventData → HttpOutcome) :
    Int → List Int → Int × List EventData
  | w, [] => (w, [])
  | w, now :: rest =>
      let r := poll_cycle w now device_mac (Except.ok (eventsInWindow E w now)) http
      let t := runCycles device_mac E http r.1 rest
      (t.1, r.2.map Prod.fst ++ t.2)

/-- Well-spaced poll times: the first cycle's `current_time` is after the
starting watermark, and consecutive cycles are separated by more than the
1 ms epsilon (the real loop sleeps 5 s between cycles). -/
def polls_ok : Int → List Int → Bool
  | _, [] => true
  | w, n :: rest => decide (w < n) && polls_ok (n + 1) rest

/-! ### Helper lemmas about the event scan loop -/

lemma scanEvents_fst (dm : String) (evs : List RawEvent) :
    ∀ (ps : List EventData) (l : Int),
      (scanEvents dm evs ps l).1 =
        ps ++ (evs.filter (fun e => e.event_type = EVENT_TYPE_BUTTON_PRESS)).map
          (fun e => { eventType := e.event_type, deviceMac := dm, eventTime := e.event_ts }) := by
  induction evs with
  | nil => intro ps l; simp [scanEvents]
  | cons e rest ih =>
      intro ps l
      by_cases h : e.event_type = EVENT_TYPE_BUTTON_PRESS
      · simp [scanEvents, h, ih, List.filter_cons]
      · simp [scanEvents, h, ih, List.filter_cons]

lemma scanEvents_snd_ge (dm : String) (evs : List RawEvent) :
    ∀ (ps : List EventData) (l : Int), l ≤ (scanEvents dm evs ps l).2 := by
  induction evs with
  | nil => intro ps l; simp [scanEvents]
  | cons e rest ih =>
      intro ps l
      simp only [scanEvents]
      have hl : l ≤ (if e.event_ts > l then e.event_ts else l) := by split <;> omega
      exact le_trans hl (ih _ _)

lemma scanEvents_snd_ub (dm : String) (evs : List RawEvent) :
    ∀ (ps : List EventData) (l : Int), ∀ e ∈ evs, e.event_ts ≤ (scanEvents dm evs ps l).2 := by
  induction evs with
  | nil => intro ps l e he; cases he
  | cons a rest ih =>
      intro ps l e he
      simp only [scanEvents]
      rcases List.mem_cons.mp he with rfl | hmem
      · refine le_trans ?_ (scanEvents_snd_ge dm rest _ _)
        split <;> omega
      · exact ih _ _ e hmem

lemma scanEvents_snd_cases (dm : String) (evs : List RawEvent) :
    ∀ (ps : List EventData) (l : Int),
      (scanEvents dm evs ps l).2 = l ∨
        (scanEvents dm evs ps l).2 ∈ evs.map RawEvent.event_ts := by
  induction evs with
  | nil => intro ps l; left; simp [scanEvents]
  | cons a rest ih =>
      intro ps l
      simp only [scanEvents]
      rcases ih (if a.event_type = EVENT_TYPE_BUTTON_PRESS then
          ps ++ [{ eventType := a.event_type, deviceMac := dm, eventTime := a.event_ts }]
        else ps) (if a.event_ts > l then a.event_ts else l) with h | h
      · rw [h]
        by_cases hgt : a.event_ts > l
        · right
          rw [if_pos hgt]
          exact List.mem_map_of_mem _ (List.mem_cons_self a rest)
        · left
          rw [if_neg hgt]
      · right
        simp only [List.map_cons]
        exact List.mem_cons_of_mem _ h

lemma scanEvents_snd_fixed (dm : String) (evs : List RawEvent) :
    ∀ (ps : List EventData) (l : Int), (∀ e ∈ evs, e.event_ts ≤ l) →
      (scanEvents dm evs ps l).2 = l := by
  induction evs with
  | nil => intro ps l _; simp [scanEvents]
  | cons a rest ih =>
      intro ps l hle
      simp only [scanEvents]
      have ha : ¬ a.event_ts > l := by
        have := hle a (List.mem_cons_self a rest)
        omega
      rw [if_neg ha]
      exact ih _ _ (fun e he => hle e (List.mem_cons_of_mem a he))

/-! ### Helper lemmas about one poll cycle -/

lemma poll_cycle_watermark (lc ct : Int) (dm : String) (evs : List RawEvent)
    (http : EventData → HttpOutcome) :
    (poll_cycle lc ct dm (Except.ok evs) http).1 =
      if (scanEvents dm evs [] lc).2 > lc then (scanEvents dm evs [] lc).2 + EPSILON_MS
      else ct := rfl

lemma poll_cycle_sent (lc ct : Int) (dm : String) (evs : List RawEvent)
    (http : EventData → HttpOutcome) :
    ((poll_cycle lc ct dm (Except.ok evs) http).2).map Prod.fst =
      ((evs.filter (fun e => e.event_type = EVENT_TYPE_BUTTON_PRESS)).map
        (fun e => { eventType := e.event_type, deviceMac := dm, eventTime := e.event_ts })).reverse := by
  simp [poll_cycle, scanEvents_fst, List.map_map, Function.comp]

/-! ### Helper lemmas for multi-cycle runs -/

lemma runCycles_nil (dm : String) (E : List RawEvent) (http : EventData → HttpOutcome)
    (w : Int) : runCycles dm E http w [] = (w, []) := rfl

lemma runCycles_cons (dm : String) (E : List RawEvent) (http : EventData → HttpOutcome)
    (w n : Int) (rest : List Int) :
    runCycles dm E http w (n :: rest) =
      ((runCycles dm E http (poll_cycle w n dm (Except.ok (eventsInWindow E w n)) http).1 rest).1,
        (poll_cycle w n dm (Except.ok (eventsInWindow E w n)) http).2.map Prod.fst ++
          (runCycles dm E http
            (poll_cycle w n dm (Except.ok (eventsInWindow E w n)) http).1 rest).2) := rfl

lemma mem_eventsInWindow {E : List RawEvent} {s t : Int} {e : RawEvent} :
    e ∈ eventsInWindow E s t ↔ e ∈ E ∧ (s ≤ e.event_ts ∧ e.event_ts ≤ t) := by
  simp [eventsInWindow, List.mem_filter]

lemma polls_ok_mono (l : List Int) : ∀ (a b : Int), a ≤ b →
    polls_ok b l = true → polls_ok a l = true := by
  cases l with
  | nil => intro a b _ _; rfl
  | cons n rest =>
      intro a b hab h
      simp only [polls_ok, Bool.and_eq_true, decide_eq_true_eq] at h ⊢
      exact ⟨by omega, h.2⟩

lemma count_filter_false {p : RawEvent → Bool} {a : RawEvent} {l : List RawEvent}
    (h : p a = false) : List.count a (l.filter p) = 0 := by
  rw [List.count_eq_zero]
  intro hmem
  have hpa := (List.mem_filter.mp hmem).2
  rw [h] at hpa
  cases hpa

lemma filter_perm_append (l : List RawEvent) (p q r : RawEvent → Bool)
    (hpq : ∀ a ∈ l, r a = (p a || q a))
    (hdisj : ∀ a ∈ l, ¬(p a = true ∧ q a = true)) :
    (l.filter r).Perm (l.filter p ++ l.filter q) := by
  rw [List.perm_iff_count]
  intro x
  rw [List.count_append]
  by_cases hx : x ∈ l
  · have hr := hpq x hx
    have hd := hdisj x hx
    cases hp : p x with
    | true =>
        have hq2 : q x = false := by
          cases hq3 : q x with
          | true => exact absurd ⟨hp, hq3⟩ hd
          | false => rfl
        rw [List.count_filter (by rw [hr, hp]; rfl), List.count_filter hp,
          count_filter_false hq2]
        omega
    | false =>
        cases hq3 : q x with
        | true =>
            rw [List.count_filter (by rw [hr, hp, hq3]; rfl), List.count_filter hq3,
              count_filter_false hp]
            omega
        | false =>
            rw [count_filter_false (by rw [hr, hp, hq3]; rfl), count_filter_false hp,
              count_filter_false hq3]
  · have hz : ∀ (s : RawEvent → Bool), List.count x (l.filter s) = 0 := by
      intro s
      rw [List.count_eq_zero]
      intro hmem
      exact hx ((List.mem_filter.mp hmem).1)
    rw [hz, hz, hz]

lemma filter_range_split (E : List RawEvent) (a b c : Int) (hab : a ≤ b) (hbc : b ≤ c) :
    ((E.filter (fun e => a ≤ e.event_ts ∧ e.event_ts < b)) ++
      (E.filter (fun e => b ≤ e.event_ts ∧ e.event_ts < c))).Perm
      (E.filter (fun e => a ≤ e.event_ts ∧ e.event_ts < c)) := by
  refine (filter_perm_append E _ _ _ ?_ ?_).symm
  · intro x _
    rw [← Bool.decide_or]
    exact decide_eq_decide.mpr (by omega)
  · intro x _
    simp only [decide_eq_true_eq]
    omega

/-- One successful in-window cycle with only qualifying stored events:
the watermark strictly advances, stays below `n + 1`, the half-open range
`[w, newWatermark)` captures exactly the inclusive window `[w, n]` on the
stored events, and the delivered timestamps are a permutation of the
stored events in that range. -/
lemma cycle_step (dm : String) (E : List RawEvent)
    (hq : ∀ e ∈ E, e.event_type = EVENT_TYPE_BUTTON_PRESS)
    (w n : Int) (http : EventData → HttpOutcome) (hwn : w < n) :
    w < (poll_cycle w n dm (Except.ok (eventsInWindow E w n)) http).1 ∧
      (poll_cycle w n dm (Except.ok (eventsInWindow E w n)) http).1 ≤ n + 1 ∧
      (∀ e ∈ E, (w ≤ e.event_ts ∧ e.event_ts ≤ n) ↔
        (w ≤ e.event_ts ∧ e.event_ts <
          (poll_cycle w n dm (Except.ok (eventsInWindow E w n)) http).1)) ∧
      ((((poll_cycle w n dm (Except.ok (eventsInWindow E w n)) http).2).map Prod.fst).map
          EventData.eventTime).Perm
        ((E.filter (fun e => w ≤ e.event_ts ∧ e.event_ts <
          (poll_cycle w n dm (Except.ok (eventsInWindow E w n)) http).1)).map
          RawEvent.event_ts) := by
  have hLge : w ≤ (scanEvents dm (eventsInWindow E w n) [] w).2 :=
    scanEvents_snd_ge dm (eventsInWindow E w n) [] w
  have hLub : ∀ e ∈ eventsInWindow E w n,
      e.event_ts ≤ (scanEvents dm (eventsInWindow E w n) [] w).2 :=
    scanEvents_snd_ub dm (eventsInWindow E w n) [] w
  have hLn : (scanEvents dm (eventsInWindow E w n) [] w).2 ≤ n := by
    rcases scanEvents_snd_cases dm (eventsInWindow E w n) [] w with h | h
    · omega
    · obtain ⟨e, he, hts⟩ := List.mem_map.mp h
      have := (mem_eventsInWindow.mp he).2
      omega
  have hwm := poll_cycle_watermark w n dm (eventsInWindow E w n) http
  simp only [EPSILON_MS] at hwm
  have hW1 : w < (poll_cycle w n dm (Except.ok (eventsInWindow E w n)) http).1 := by
    rw [hwm]; split <;> omega
  have hW2 : (poll_cycle w n dm (Except.ok (eventsInWindow E w n)) http).1 ≤ n + 1 := by
    rw [hwm]; split <;> omega
  have h3 : ∀ e ∈ E, (w ≤ e.event_ts ∧ e.event_ts ≤ n) ↔
      (w ≤ e.event_ts ∧ e.event_ts <
        (poll_cycle w n dm (Except.ok (eventsInWindow E w n)) http).1) := by
    intro e he
    constructor
    · rintro ⟨ha, hb⟩
      refine ⟨ha, ?_⟩
      have hin : e ∈ eventsInWindow E w n := mem_eventsInWindow.mpr ⟨he, ha, hb⟩
      have := hLub e hin
      rw [hwm]; split <;> omega
    · rintro ⟨ha, hb⟩
      refine ⟨ha, ?_⟩
      rw [hwm] at hb
      revert hb
      split <;> omega
  refine ⟨hW1, hW2, h3, ?_⟩
  have hfe : List.filter (fun e => e.event_type = EVENT_TYPE_BUTTON_PRESS)
      (eventsInWindow E w n) = eventsInWindow E w n :=
    List.filter_eq_self.mpr (fun e he => decide_eq_true (hq e (mem_eventsInWindow.mp he).1))
  have hkey : ((((poll_cycle w n dm (Except.ok (eventsInWindow E w n)) http).2).map Prod.fst).map
      EventData.eventTime) = ((eventsInWindow E w n).map RawEvent.event_ts).reverse := by
    rw [poll_cycle_sent, hfe, List.map_reverse, List.map_map]
    rfl
  rw [hkey]
  have hfilters : eventsInWindow E w n =
      E.filter (fun e => w ≤ e.event_ts ∧ e.event_ts <
        (poll_cycle w n dm (Except.ok (eventsInWindow E w n)) http).1) := by
    unfold eventsInWindow
    exact List.filter_congr (fun e he => decide_eq_decide.mpr (h3 e he))
  refine (List.reverse_perm _).trans ?_
  conv_lhs => rw [hfilters]

/-- Run invariant: starting from watermark `w` with well-spaced poll times,
the final watermark is at least `w`, the delivered timestamps are exactly
(as a multiset) the stored events in `[w, finalWatermark)`, and every
stored event at or after `w` that is covered by some cycle's window end
lands strictly below the final watermark. -/
lemma runCycles_spec (dm : String) (E : List RawEvent)
    (hq : ∀ e ∈ E, e.event_type = EVENT_TYPE_BUTTON_PRESS)
    (http : EventData → HttpOutcome) :
    ∀ (nows : List Int) (w : Int), polls_ok w nows = true →
      w ≤ (runCycles dm E http w nows).1 ∧
      (((runCycles dm E http w nows).2).map EventData.eventTime).Perm
        ((E.filter (fun e => w ≤ e.event_ts ∧ e.event_ts <
          (runCycles dm E http w nows).1)).map RawEvent.event_ts) ∧
      (∀ e ∈ E, ∀ m ∈ nows, w ≤ e.event_ts → e.event_ts ≤ m →
        e.event_ts < (runCycles dm E http w nows).1) := by
  intro nows
  induction nows with
  | nil =>
      intro w _
      refine ⟨le_refl w, ?_, ?_⟩
      · have hnil : E.filter (fun e => w ≤ e.event_ts ∧ e.event_ts < w) = [] :=
          List.filter_eq_nil_iff.mpr
            (fun a _ => by simp only [decide_eq_true_eq]; omega)
        rw [runCycles_nil]
        simp only [hnil]
        simp
      · intro e _ m hm
        simp at hm
  | cons n rest ih =>
      intro w hok
      have hok2 : (decide (w < n) && polls_ok (n + 1) rest) = true := hok
      rw [Bool.and_eq_true, decide_eq_true_eq] at hok2
      obtain ⟨hwn, hrest⟩ := hok2
      obtain ⟨h1, h2, h3, h4⟩ := cycle_step dm E hq w n http hwn
      have hok' : polls_ok
          (poll_cycle w n dm (Except.ok (eventsInWindow E w n)) http).1 rest = true :=
        polls_ok_mono rest _ (n + 1) h2 hrest
      obtain ⟨ihw, ihperm, ih3⟩ :=
        ih (poll_cycle w n dm (Except.ok (eventsInWindow E w n)) http).1 hok'
      rw [runCycles_cons]
      refine ⟨le_trans (le_of_lt h1) ihw, ?_, ?_⟩
      · rw [List.map_append]
        refine (h4.append ihperm).trans ?_
        have hsplit := (filter_range_split E _ _ _ (le_of_lt h1) ihw).map RawEvent.event_ts
        rw [List.map_append] at hsplit
        exact hsplit
      · intro e he m hm hwts hts
        rcases List.mem_cons.mp hm with heq | hm'
        · rw [heq] at hts
          have hlt : e.event_ts <
              (poll_cycle w n dm (Except.ok (eventsInWindow E w n)) http).1 :=
            ((h3 e he).mp ⟨hwts, hts⟩).2
          omega
        · by_cases hcase : e.event_ts <
              (poll_cycle w n dm (Except.ok (eventsInWindow E w n)) http).1
          · omega
          · exact ih3 e he m hm' (by omega) hts

/-! ### Claim theorems -/

/-- Claim C1: for a fixed set of qualifying events with strictly increasing
timestamps, spread across the windows of `N` consecutive poll cycles (every
query succeeding and returning exactly the events falling in its inclusive
window, the event count within the 10-event cap), each event is POSTed
exactly once over the `N` cycles — the delivered timestamp sequence is a
duplicate-free permutation of the event timestamps, so no event is
delivered in two cycles and none is skipped.  The cycle `current_time`s
are well-spaced (`polls_ok`): each exceeds its predecessor by more than
the 1 ms watermark epsilon, as the 5 s polling interval guarantees. -/
theorem C1_exactly_once_delivery (dm : String) (E : List RawEvent)
    (http : EventData → HttpOutcome) (w0 : Int) (nows : List Int)
    (hq : ∀ e ∈ E, e.event_type = EVENT_TYPE_BUTTON_PRESS)
    (hts : List.Pairwise (· < ·) (E.map RawEvent.event_ts))
    (_hcap : E.length ≤ 10)
    (hok : polls_ok w0 nows = true)
    (hcov : ∀ e ∈ E, w0 ≤ e.event_ts ∧ ∃ m ∈ nows, e.event_ts ≤ m) :
    (((runCycles dm E http w0 nows).2).map EventData.eventTime).Perm
        (E.map RawEvent.event_ts) ∧
      (((runCycles dm E http w0 nows).2).map EventData.eventTime).Nodup := by
  obtain ⟨hw, hperm, h3⟩ := runCycles_spec dm E hq http nows w0 hok
  have hfull : E.filter (fun e => w0 ≤ e.event_ts ∧ e.event_ts <
      (runCycles dm E http w0 nows).1) = E := by
    apply List.filter_eq_self.mpr
    intro e he
    rw [decide_eq_true_eq]
    obtain ⟨h0, m, hm, hle⟩ := hcov e he
    exact ⟨h0, h3 e he m hm h0 hle⟩
  rw [hfull] at hperm
  refine ⟨hperm, ?_⟩
  have hnd : (E.map RawEvent.event_ts).Nodup :=
    List.Pairwise.imp (fun h => ne_of_lt h) hts
  exact hperm.nodup_iff.mpr hnd

/-- Witness for `C1_exactly_once_delivery`: two qualifying events at
timestamps 3 and 7, two cycles with windows `[0, 5]` then `[4, 12]`
(overlapping coverage `[0, 12]`); each event is delivered exactly once. -/
theorem C1_exactly_once_delivery_witness :
    (∀ e ∈ [(⟨2005, 3⟩ : RawEvent), ⟨2005, 7⟩], e.event_type = EVENT_TYPE_BUTTON_PRESS) ∧
      List.Pairwise (· < ·) ([(⟨2005, 3⟩ : RawEvent), ⟨2005, 7⟩].map RawEvent.event_ts) ∧
      [(⟨2005, 3⟩ : RawEvent), ⟨2005, 7⟩].length ≤ 10 ∧
      polls_ok 0 [5, 12] = true ∧
      (∀ e ∈ [(⟨2005, 3⟩ : RawEvent), ⟨2005, 7⟩],
        (0 : Int) ≤ e.event_ts ∧ ∃ m ∈ [(5 : Int), 12], e.event_ts ≤ m) ∧
      ((((runCycles "m" [⟨2005, 3⟩, ⟨2005, 7⟩] (fun _ => HttpOutcome.status 200)
            0 [5, 12]).2).map EventData.eventTime).Perm
          ([(⟨2005, 3⟩ : RawEvent), ⟨2005, 7⟩].map RawEvent.event_ts) ∧
        (((runCycles "m" [⟨2005, 3⟩, ⟨2005, 7⟩] (fun _ => HttpOutcome.status 200)
            0 [5, 12]).2).map EventData.eventTime).Nodup) :=
  ⟨by decide, by decide, by decide, by decide, by decide,
    C1_exactly_once_delivery "m" [⟨2005, 3⟩, ⟨2005, 7⟩] (fun _ => HttpOutcome.status 200)
      0 [5, 12] (by decide) (by decide) (by decide) (by decide) (by decide)⟩

/-- Claim C2 (counterexample): on a cycle with a skewed clock
(`current_time` sampled behind the watermark, e.g. after a backwards NTP
step) whose query succeeds with zero events, the code sets
`last_check_time = current_time`, strictly *decreasing* the watermark —
so the watermark is not monotonically non-decreasing over arbitrary
sequences of cycles. -/
theorem C2_counterexample :
    (poll_cycle 100 50 "m" (Except.ok []) (fun _ => HttpOutcome.status 200)).1 < 100 := by
  decide

/-- Claim C2 (amended): provided a cycle samples its `current_time` no
earlier than the watermark (`last_check_time ≤ current_time`), the
watermark never decreases across that cycle; and it strictly increases on
every cycle whose query completes successfully and whose `current_time`
strictly exceeds the watermark. -/
theorem C2_watermark_monotone (last_check current : Int) (dm : String)
    (q : Except Unit (List RawEvent)) (http : EventData → HttpOutcome)
    (hclock : last_check ≤ current) :
    last_check ≤ (poll_cycle last_check current dm q http).1 ∧
      (last_check < current → ∀ evs, q = Except.ok evs →
        last_check < (poll_cycle last_check current dm q http).1) := by
  cases q with
  | error e =>
      exact ⟨le_refl _, fun _ evs h => by cases h⟩
  | ok evs =>
      have hge : last_check ≤ (scanEvents dm evs [] last_check).2 :=
        scanEvents_snd_ge dm evs [] last_check
      refine ⟨?_, ?_⟩
      · rw [poll_cycle_watermark]
        unfold EPSILON_MS
        split <;> omega
      · intro hlt evs' hq
        injection hq with hq'
        subst hq'
        rw [poll_cycle_watermark]
        unfold EPSILON_MS
        split <;> omega

/-- Witness for `C2_watermark_monotone` at a concrete input. -/
theorem C2_watermark_monotone_witness :
    (0 : Int) ≤ 5 ∧
      ((0 : Int) ≤ (poll_cycle 0 5 "m" (Except.ok [⟨2005, 3⟩]) (fun _ => HttpOutcome.status 200)).1 ∧
        ((0 : Int) < 5 → ∀ evs,
          (Except.ok [(⟨2005, 3⟩ : RawEvent)] : Except Unit (List RawEvent)) = Except.ok evs →
          (0 : Int) < (poll_cycle 0 5 "m" (Except.ok [⟨2005, 3⟩]) (fun _ => HttpOutcome.status 200)).1)) :=
  ⟨by norm_num, C2_watermark_monotone 0 5 "m" _ _ (by norm_num)⟩

/-- Claim C3 (counterexample): the query succeeds and returns one event,
at a timestamp exactly equal to the window start; the maximum `occurredAt`
over all returned events is `10`, but the watermark is set to the window
end `20`, not to `10 + 1 ms` — the `latest_event_time > last_check_time`
guard fails because the running maximum is seeded with `start_time`. -/
theorem C3_counterexample :
    (poll_cycle 10 20 "m" (Except.ok [⟨2005, 10⟩]) (fun _ => HttpOutcome.status 200)).1 = 20 ∧
      (20 : Int) ≠ 10 + EPSILON_MS := by
  constructor
  · rfl
  · decide

/-- Claim C3 (amended): for every successful poll cycle in which at least
one returned event's timestamp is *strictly greater than the window start*,
the watermark is set to the maximum `occurredAt` taken over ALL returned
events (qualifying or not) plus 1 ms. -/
theorem C3_watermark_past_latest (last_check current : Int) (dm : String)
    (evs : List RawEvent) (http : EventData → HttpOutcome)
    (hgt : ∃ e ∈ evs, last_check < e.event_ts) :
    ∃ m, m ∈ evs.map RawEvent.event_ts ∧ (∀ t ∈ evs.map RawEvent.event_ts, t ≤ m) ∧
      (poll_cycle last_check current dm (Except.ok evs) http).1 = m + EPSILON_MS := by
  obtain ⟨e, he, hlt⟩ := hgt
  have hub := scanEvents_snd_ub dm evs [] last_check
  have hgt2 : last_check < (scanEvents dm evs [] last_check).2 :=
    lt_of_lt_of_le hlt (hub e he)
  rcases scanEvents_snd_cases dm evs [] last_check with hc | hc
  · omega
  · refine ⟨(scanEvents dm evs [] last_check).2, hc, ?_, ?_⟩
    · intro t ht
      obtain ⟨e', he', rfl⟩ := List.mem_map.mp ht
      exact hub e' he'
    · rw [poll_cycle_watermark, if_pos hgt2]

/-- Witness for `C3_watermark_past_latest`: note the maximum is attained by
a non-matching event (type `1`), which still counts toward the watermark. -/
theorem C3_watermark_past_latest_witness :
    (∃ e ∈ [(⟨1, 7⟩ : RawEvent), ⟨2005, 4⟩], (0 : Int) < e.event_ts) ∧
      ∃ m, m ∈ ([(⟨1, 7⟩ : RawEvent), ⟨2005, 4⟩].map RawEvent.event_ts) ∧
        (∀ t ∈ ([(⟨1, 7⟩ : RawEvent), ⟨2005, 4⟩].map RawEvent.event_ts), t ≤ m) ∧
        (poll_cycle 0 20 "m" (Except.ok [⟨1, 7⟩, ⟨2005, 4⟩]) (fun _ => HttpOutcome.status 200)).1 =
          m + EPSILON_MS :=
  ⟨by decide, C3_watermark_past_latest 0 20 "m" _ _ (by decide)⟩

/-- Claim C4: a successful poll cycle with zero returned events sets the
watermark to `current_time` (the window end sampled at the start of the
same cycle) and delivers nothing; since `poll_for_doorbell_events` reads
`start_time = last_check_time`, the next cycle's window start equals that
window end. -/
theorem C4_quiet_window_advances (last_check current : Int) (dm : String)
    (http : EventData → HttpOutcome) :
    poll_cycle last_check current dm (Except.ok []) http = (current, []) := by
  simp [poll_cycle, scanEvents]

/-- Claim C5: when the query raises, the `except` block returns without
delivering anything and without touching `last_check_time`; the next
cycle's window start therefore equals this cycle's window start. -/
theorem C5_query_failure_atomic (last_check current : Int) (dm : String)
    (err : Unit) (http : EventData → HttpOutcome) :
    poll_cycle last_check current dm (Except.error err) http = (last_check, []) := rfl

/-- Claim C6 (counterexample): three qualifying events returned by the
source in the order `1, 3, 2` are POSTed in the order `2, 3, 1`
(`reversed(new_doorbell_presses)` reverses the source's return order, it
does not sort by `occurredAt`), which is not ascending. -/
theorem C6_counterexample :
    (((poll_cycle 0 10 "m" (Except.ok [⟨2005, 1⟩, ⟨2005, 3⟩, ⟨2005, 2⟩])
        (fun _ => HttpOutcome.status 200)).2.map Prod.fst).map EventData.eventTime) =
      [2, 3, 1] ∧
      ¬ List.Pairwise (· < ·) ([2, 3, 1] : List Int) := by
  constructor
  · rfl
  · decide

/-- Claim C6 (amended): qualifying events are delivered in the *reverse of
the order the source returned them*; hence when the source returns its
qualifying events newest-first (strictly descending `occurredAt`), the
deliveries occur oldest-first `T1, T2, T3` — but not for arbitrary return
order. -/
theorem C6_delivery_order (last_check current : Int) (dm : String)
    (evs : List RawEvent) (http : EventData → HttpOutcome)
    (hdesc : List.Pairwise (fun a b => b < a)
      ((evs.filter (fun e => e.event_type = EVENT_TYPE_BUTTON_PRESS)).map RawEvent.event_ts)) :
    List.Pairwise (· < ·)
      (((poll_cycle last_check current dm (Except.ok evs) http).2.map Prod.fst).map
        EventData.eventTime) ∧
      ((((poll_cycle last_check current dm (Except.ok evs) http).2.map Prod.fst).map
        EventData.eventTime).Perm
        ((evs.filter (fun e => e.event_type = EVENT_TYPE_BUTTON_PRESS)).map RawEvent.event_ts)) := by
  have key : (((poll_cycle last_check current dm (Except.ok evs) http).2.map Prod.fst).map
      EventData.eventTime) =
      ((evs.filter (fun e => e.event_type = EVENT_TYPE_BUTTON_PRESS)).map RawEvent.event_ts).reverse := by
    rw [poll_cycle_sent, List.map_reverse, List.map_map]
    rfl
  rw [key]
  exact ⟨List.pairwise_reverse.mpr hdesc, List.reverse_perm _⟩

/-- Witness for `C6_delivery_order`: the source returns qualifying events
newest-first (`3` then `1`) and they are POSTed oldest-first. -/
theorem C6_delivery_order_witness :
    List.Pairwise (fun a b => b < a)
      (([(⟨2005, 3⟩ : RawEvent), ⟨2005, 1⟩].filter
        (fun e => e.event_type = EVENT_TYPE_BUTTON_PRESS)).map RawEvent.event_ts) ∧
      (List.Pairwise (· < ·)
        (((poll_cycle 0 10 "m" (Except.ok [⟨2005, 3⟩, ⟨2005, 1⟩])
          (fun _ => HttpOutcome.status 200)).2.map Prod.fst).map EventData.eventTime) ∧
        ((((poll_cycle 0 10 "m" (Except.ok [⟨2005, 3⟩, ⟨2005, 1⟩])
          (fun _ => HttpOutcome.status 200)).2.map Prod.fst).map EventData.eventTime).Perm
          (([(⟨2005, 3⟩ : RawEvent), ⟨2005, 1⟩].filter
            (fun e => e.event_type = EVENT_TYPE_BUTTON_PRESS)).map RawEvent.event_ts))) :=
  ⟨by decide, C6_delivery_order 0 10 "m" _ _ (by decide)⟩

/-- Claim C7: neither the list of payloads attempted (every qualifying
event, in the same order) nor the end-of-cycle watermark depends on the
HTTP outcomes of the individual POSTs — comparing an arbitrary (possibly
all-failing) outcome assignment with the all-2xx one: a failed delivery
aborts neither its sibling deliveries nor the watermark advance. -/
theorem C7_delivery_failures_isolated (last_check current : Int) (dm : String)
    (evs : List RawEvent) (http : EventData → HttpOutcome) :
    (poll_cycle last_check current dm (Except.ok evs) http).1 =
      (poll_cycle last_check current dm (Except.ok evs) (fun _ => HttpOutcome.status 200)).1 ∧
      ((poll_cycle last_check current dm (Except.ok evs) http).2).map Prod.fst =
        ((poll_cycle last_check current dm (Except.ok evs)
          (fun _ => HttpOutcome.status 200)).2).map Prod.fst := by
  constructor
  · rfl
  · simp [poll_cycle, List.map_map, Function.comp]

/-- Claim C8 (counterexample): a `301` response is reported as a delivery
success by `send_to_csharp_bridge` (`raise_for_status` only raises for
4xx/5xx), yet `301` is not in the 2xx range — "success iff 2xx" is false. -/
theorem C8_counterexample :
    send_to_csharp_bridge (HttpOutcome.status 301) = DeliveryResult.success ∧
      ¬(200 ≤ (301 : Nat) ∧ (301 : Nat) < 300) := by
  constructor
  · rfl
  · decide

/-- Claim C8 (amended): the adapter reports success iff a response was
received whose status is *not* in 400..599 (so 1xx/2xx/3xx all count as
success); every 4xx/5xx status and every transport-level error is a
delivery failure, and all failures are swallowed — the adapter never
raises to its caller (its body is one total `try/except`). -/
theorem C8_success_iff_not_error_status (outcome : HttpOutcome) :
    send_to_csharp_bridge outcome = DeliveryResult.success ↔
      ∃ c : Nat, outcome = HttpOutcome.status c ∧ ¬(400 ≤ c ∧ c < 600) := by
  cases outcome with
  | transportError =>
      simp [send_to_csharp_bridge, post_and_raise_for_status]
  | status c =>
      by_cases h : 400 ≤ c ∧ c < 600
      · simp [send_to_csharp_bridge, post_and_raise_for_status, h]
      · simp only [send_to_csharp_bridge, post_and_raise_for_status, if_neg h]
        simp only [HttpOutcome.status.injEq, true_iff, iff_true]
        exact ⟨c, rfl, h⟩

/-- Claim C9: a cycle whose window is inverted (`current_time` behind the
watermark, clock skew) and whose query succeeds — necessarily with zero
events, since no event timestamp fits an empty inclusive range — delivers
nothing, does not raise (`poll_cycle` is total), and still sets the
watermark to the window end, so the loop is never stuck on the same
inverted window. -/
theorem C9_inverted_window_fail_safe (last_check current : Int) (dm : String)
    (evs : List RawEvent) (http : EventData → HttpOutcome)
    (hinv : current < last_check)
    (hwin : ∀ e ∈ evs, last_check ≤ e.event_ts ∧ e.event_ts ≤ current) :
    poll_cycle last_check current dm (Except.ok evs) http = (current, []) := by
  have hnil : evs = [] := by
    cases evs with
    | nil => rfl
    | cons a l =>
        exfalso
        have h := hwin a (List.mem_cons_self a l)
        omega
  subst hnil
  simp [poll_cycle, scanEvents]

/-- Witness for `C9_inverted_window_fail_safe` at a concrete skewed cycle. -/
theorem C9_inverted_window_fail_safe_witness :
    (5 : Int) < 10 ∧
      (∀ e ∈ ([] : List RawEvent), (10 : Int) ≤ e.event_ts ∧ e.event_ts ≤ 5) ∧
      poll_cycle 10 5 "m" (Except.ok []) (fun _ => HttpOutcome.status 200) = (5, []) :=
  ⟨by norm_num, by simp,
    C9_inverted_window_fail_safe 10 5 "m" [] (fun _ => HttpOutcome.status 200)
      (by norm_num) (by simp)⟩

/-- Claim C10: a successful cycle that returns at least one event but none
with a timestamp strictly greater than the window start falls through to
the `else` branch: the watermark becomes the window end (`current_time`),
not "max timestamp + 1 ms"; the qualifying events among them are still
POSTed in that cycle. -/
theorem C10_stale_events_watermark_to_now (last_check current : Int) (dm : String)
    (evs : List RawEvent) (http : EventData → HttpOutcome)
    (_hne : evs ≠ [])
    (hle : ∀ e ∈ evs, e.event_ts ≤ last_check) :
    (poll_cycle last_check current dm (Except.ok evs) http).1 = current ∧
      ∀ e ∈ evs, e.event_type = EVENT_TYPE_BUTTON_PRESS →
        ({ eventType := e.event_type, deviceMac := dm, eventTime := e.event_ts } : EventData)
          ∈ (poll_cycle last_check current dm (Except.ok evs) http).2.map Prod.fst := by
  have hfix : (scanEvents dm evs [] last_check).2 = last_check :=
    scanEvents_snd_fixed dm evs [] last_check hle
  constructor
  · rw [poll_cycle_watermark, hfix, if_neg (lt_irrefl last_check)]
  · intro e he htype
    rw [poll_cycle_sent, List.mem_reverse]
    exact List.mem_map_of_mem _ (List.mem_filter.mpr ⟨he, by simp [htype]⟩)

/-- Witness for `C10_stale_events_watermark_to_now`: one qualifying event
exactly at the window start is delivered while the watermark jumps to the
window end. -/
theorem C10_stale_events_watermark_to_now_witness :
    ([(⟨2005, 5⟩ : RawEvent)] ≠ []) ∧
      (∀ e ∈ [(⟨2005, 5⟩ : RawEvent)], e.event_ts ≤ (5 : Int)) ∧
      ((poll_cycle 5 9 "m" (Except.ok [⟨2005, 5⟩]) (fun _ => HttpOutcome.status 200)).1 = 9 ∧
        ∀ e ∈ [(⟨2005, 5⟩ : RawEvent)], e.event_type = EVENT_TYPE_BUTTON_PRESS →
          ({ eventType := e.event_type, deviceMac := "m", eventTime := e.event_ts } : EventData)
            ∈ (poll_cycle 5 9 "m" (Except.ok [⟨2005, 5⟩])
                (fun _ => HttpOutcome.status 200)).2.map Prod.fst) :=
  ⟨by decide, by decide,
    C10_stale_events_watermark_to_now 5 9 "m" _ (fun _ => HttpOutcome.status 200)
      (by decide) (by decide)⟩

end WyzeBridge
